import Mathlib

/-!
# Verification of the DBus message framing layer (`message.go`, package `dbus`)

Shallow embedding of the message entity, validator, encode pipeline and decode
pipeline of the repository's `message.go`.  Machine integers are modelled as
`Nat` with explicit reductions modulo `2 ^ 8` / `2 ^ 32` where the Go types are
`byte` / `uint32`.  Byte streams are modelled as `List Nat`; a read returns the
bytes consumed and the remaining stream.

The primitive codec (`NewEncoder` / `NewDecoder`, `EncodeMulti` / `DecodeMulti`,
`align`) is not part of the repository sources; per the specification it is an
external collaborator.  The definitions marked `Modelled from the spec:` embed
it following the specification's description: fixed-width scalars written in
the active byte order, a length-prefixed array of (field-code, variant) pairs,
variants carried with an explicit wire-level type tag, and alignment padding.
-/

namespace DBus

/-- Byte order of a message (`binary.LittleEndian` / `binary.BigEndian`). -/
inductive ByteOrder
  | littleEndian
  | bigEndian
deriving DecidableEq

/-- Runtime types that header-field values may have, standing in for the
`reflect.Type` registry values `objectPathType`, `stringType`, `uint32Type`,
`signatureType`; `otherType` stands for any other Go runtime type. -/
inductive RType
  | objectPathType
  | stringType
  | uint32Type
  | signatureType
  | otherType
deriving DecidableEq

/-- The value carried by a header variant.  String-like values carry their
bytes; `other` stands for a value of any runtime type outside the registry. -/
inductive VariantValue
  | objPath (s : List Nat)
  | str (s : List Nat)
  | sig (s : List Nat)
  | u32 (n : Nat)
  | other
deriving DecidableEq

/-- The runtime type of a variant value (`reflect.TypeOf(v.value)`). -/
def VariantValue.rtype : VariantValue → RType
  | .objPath _ => .objectPathType
  | .str _ => .stringType
  | .sig _ => .signatureType
  | .u32 _ => .uint32Type
  | .other => .otherType

/-- A DBus variant (a value paired with its wire-level type). -/
structure Variant where
  value : VariantValue
deriving DecidableEq

/-- `protoVersion byte = 1`. -/
def protoVersion : Nat := 1

/-- `NoReplyExpected Flags = 1 << iota`. -/
def NoReplyExpected : Nat := 1

/-- `NoAutoStart`. -/
def NoAutoStart : Nat := 2

/-- `TypeMethodCall Type = 1 + iota`. -/
def TypeMethodCall : Nat := 1

/-- `TypeMethodReply`. -/
def TypeMethodReply : Nat := 2

/-- `TypeError`. -/
def TypeError : Nat := 3

/-- `TypeSignal`. -/
def TypeSignal : Nat := 4

/-- `typeMax`. -/
def typeMax : Nat := 5

/-- `FieldPath HeaderField = 1 + iota`. -/
def FieldPath : Nat := 1

/-- `FieldInterface`. -/
def FieldInterface : Nat := 2

/-- `FieldMember`. -/
def FieldMember : Nat := 3

/-- `FieldErrorName`. -/
def FieldErrorName : Nat := 4

/-- `FieldReplySerial`. -/
def FieldReplySerial : Nat := 5

/-- `FieldDestination`. -/
def FieldDestination : Nat := 6

/-- `FieldSender`. -/
def FieldSender : Nat := 7

/-- `FieldSignature`. -/
def FieldSignature : Nat := 8

/-- `FieldUnixFds`. -/
def FieldUnixFds : Nat := 9

/-- `fieldMax`. -/
def fieldMax : Nat := 10

/-- The discriminated kinds of `InvalidMessageError` produced by
`Message.IsValid` and the byte-order check of `DecodeMessage`; each
constructor corresponds to one error string in the source. -/
inductive InvalidMessageError
  | invalidByteOrder
  | invalidFlags
  | invalidMessageType
  | invalidHeader
  | invalidHeaderType
  | missingRequiredHeader
  | missingSignature
deriving DecidableEq

/-- `fieldTypes`: header-field-code → expected `reflect.Type` of its value. -/
def fieldTypes : Nat → Option RType
  | 1 => some .objectPathType
  | 2 => some .stringType
  | 3 => some .stringType
  | 4 => some .stringType
  | 5 => some .uint32Type
  | 6 => some .stringType
  | 7 => some .stringType
  | 8 => some .signatureType
  | 9 => some .uint32Type
  | _ => none

/-- `requiredFields`: message type → header field codes that must be present.
An unknown type has no entry in the Go map, hence the empty list. -/
def requiredFields : Nat → List Nat
  | 1 => [FieldPath, FieldMember]
  | 2 => [FieldReplySerial]
  | 3 => [FieldErrorName, FieldReplySerial]
  | 4 => [FieldPath, FieldInterface, FieldMember]
  | _ => []

/-- A single DBus message (`type Message struct`).  Field names follow the Go
fields `Order`, `Type`, `Flags`, `Serial`, `Headers`, `Body` in lower case
(`Type` is not usable as a Lean field name).  `order = none` models an `Order`
that is neither `binary.LittleEndian` nor `binary.BigEndian` (e.g. nil).
`headers` models the Go map `map[HeaderField]Variant` as an association list;
a list built by Go's map always has pairwise distinct keys. -/
structure Message where
  order : Option ByteOrder
  type : Nat
  flags : Nat
  serial : Nat
  headers : List (Nat × Variant)
  body : List Nat
deriving DecidableEq

/-- `message.Headers[k]` membership test (`_, ok := message.Headers[v]`). -/
def hasKey (hs : List (Nat × Variant)) (k : Nat) : Bool :=
  hs.any (fun e => e.1 == k)

/-- The header-iteration part of `IsValid`: for each entry, reject an unknown
or zero field code, then reject a value whose runtime type differs from the
registry's expected type. -/
def checkHeaders : List (Nat × Variant) → Option InvalidMessageError
  | [] => none
  | e :: rest =>
    if e.1 = 0 ∨ fieldMax ≤ e.1 then some .invalidHeader
    else if fieldTypes e.1 ≠ some e.2.value.rtype then some .invalidHeaderType
    else checkHeaders rest

/-- `Message.IsValid`: returns `none` when the message is valid, otherwise the
first violated check's error, in source order: byte order, flags
(`Flags & ^(NoAutoStart|NoReplyExpected)`, i.e. `&&& 252` on a byte), message
type, header codes and types, required fields, signature for non-empty body. -/
def Message.IsValid (m : Message) : Option InvalidMessageError :=
  if m.order = none then some .invalidByteOrder
  else if m.flags &&& 252 ≠ 0 then some .invalidFlags
  else if m.type = 0 ∨ typeMax ≤ m.type then some .invalidMessageType
  else if checkHeaders m.headers ≠ none then checkHeaders m.headers
  else if ¬ ((requiredFields m.type).all (fun f => hasKey m.headers f)) then
    some .missingRequiredHeader
  else if m.body ≠ [] ∧ ¬ hasKey m.headers FieldSignature then
    some .missingSignature
  else none

/-- Go-representability of a variant value: string bytes are bytes and string
lengths plus `uint32` values fit in 32 bits. -/
def VariantValue.wfv : VariantValue → Prop
  | .objPath s => s.length < 2 ^ 32 ∧ ∀ b ∈ s, b < 2 ^ 8
  | .str s => s.length < 2 ^ 32 ∧ ∀ b ∈ s, b < 2 ^ 8
  | .sig s => s.length < 2 ^ 32 ∧ ∀ b ∈ s, b < 2 ^ 8
  | .u32 n => n < 2 ^ 32
  | .other => True

instance : DecidablePred VariantValue.wfv := by
  intro v
  cases v <;> unfold VariantValue.wfv <;> infer_instance

/-- Go-representability of a message: `Type` and `Flags` are bytes, `Serial`
is a `uint32`, header count and body length fit in a `uint32`, field codes are
bytes, the key set of the `Headers` map is duplicate-free, and all payload
bytes are bytes. -/
def Message.wf (m : Message) : Prop :=
  m.type < 2 ^ 8 ∧ m.flags < 2 ^ 8 ∧ m.serial < 2 ^ 32 ∧
  m.headers.length < 2 ^ 32 ∧ (m.headers.map Prod.fst).Nodup ∧
  (∀ e ∈ m.headers, e.1 < 2 ^ 8 ∧ e.2.value.wfv) ∧
  m.body.length < 2 ^ 32 ∧ ∀ b ∈ m.body, b < 2 ^ 8

instance (m : Message) : Decidable m.wf := by
  unfold Message.wf
  infer_instance

/-! ## Encode pipeline

`Message.EncodeTo` validates, then assembles the whole message into one buffer
(byte-order marker taken from `message.Order`; everything else written through
an encoder configured with `binary.LittleEndian`), aligns to 8 and appends the
body, and finally hands the buffer to the sink in a single write. -/

/-- Little-endian bytes of a `uint32` value (`n` reduced modulo `2 ^ 32`). -/
def u32Bytes (n : Nat) : List Nat :=
  [n % 256, n / 256 % 256, n / 65536 % 256, n / 16777216 % 256]

/-- Modelled from the spec: the primitive codec writes a fixed-width `uint32`
scalar in the active byte order (`encodeFixed`). -/
def encU32 : ByteOrder → Nat → List Nat
  | .littleEndian, n => u32Bytes n
  | .bigEndian, n => (u32Bytes n).reverse

/-- Modelled from the spec: value of a `uint32` read from four wire bytes in
the active byte order (`decodeFixed`). -/
def decU32 (o : ByteOrder) (bs : List Nat) : Nat :=
  match o, bs with
  | .littleEndian, [a, b, c, d] => a + 256 * b + 65536 * c + 16777216 * d
  | .bigEndian, [a, b, c, d] => d + 256 * c + 65536 * b + 16777216 * a
  | _, _ => 0

/-- Modelled from the spec: wire encoding of a variant, "a value paired with
an explicit wire-level type tag" — one tag byte, then the payload
(string-like payloads length-prefixed with a `uint32` in the active order).
A value outside the registry types has no codec encoding (such a value never
reaches the encoder: `EncodeTo` validates first). -/
def encVariant (o : ByteOrder) : VariantValue → List Nat
  | .objPath s => 1 :: (encU32 o s.length ++ s)
  | .str s => 2 :: (encU32 o s.length ++ s)
  | .sig s => 3 :: (encU32 o s.length ++ s)
  | .u32 n => 4 :: encU32 o n
  | .other => []

/-- Modelled from the spec: wire encoding of one header-array entry, a
(field-code byte, variant) pair. -/
def encHeader (o : ByteOrder) (e : Nat × Variant) : List Nat :=
  e.1 % 256 :: encVariant o e.2.value

/-- Modelled from the spec: the header section, a length-prefixed array of
(field-code, variant) entries (`encodeHeaderArray`). -/
def encHeaderArray (o : ByteOrder) (hs : List (Nat × Variant)) : List Nat :=
  encU32 o hs.length ++ (hs.map (encHeader o)).flatten

/-- Number of padding bytes bringing offset `n` to the next multiple of 8. -/
def padTo8 (n : Nat) : Nat := (8 - n % 8) % 8

/-- The byte-order marker written at byte 0: the `switch message.Order` of
`EncodeTo`.  The Go switch has no default branch; since `EncodeTo` validates
first, the `none` case is unreachable (modelled as 0). -/
def markerByte : Option ByteOrder → Nat
  | some .littleEndian => 108
  | some .bigEndian => 66
  | none => 0

/-- Everything `EncodeTo` writes before the alignment padding: marker, type,
flags, protocol version, body length (`uint32(len(message.Body))`), serial,
header array — all multi-byte fields through `NewEncoder(buf,
binary.LittleEndian)` regardless of `message.Order`. -/
def Message.encodeHead (m : Message) : List Nat :=
  markerByte m.order :: m.type % 256 :: m.flags % 256 :: protoVersion ::
    (encU32 .littleEndian m.body.length ++ encU32 .littleEndian m.serial ++
      encHeaderArray .littleEndian m.headers)

/-- The full buffer `EncodeTo` assembles: head, `enc.align(8)` zero padding,
then the body verbatim (`buf.Write(message.Body)` when non-empty; appending
an empty body is the identity). -/
def Message.encodeBytes (m : Message) : List Nat :=
  m.encodeHead ++ List.replicate (padTo8 m.encodeHead.length) 0 ++ m.body

/-- `Message.EncodeTo`: validate, then write.  The result records the
validation error, paired with the list of write operations performed on the
sink (the sink itself is modelled as an infallible collector; transport
write errors are opaque pass-through and outside this model).  On validation
failure nothing is written; on success `buf.WriteTo(out)` hands the whole
buffer to the sink in one write. -/
def Message.EncodeTo (m : Message) : Option InvalidMessageError × List (List Nat) :=
  match m.IsValid with
  | some e => (some e, [])
  | none => (none, [m.encodeBytes])

/-! ## Decode pipeline

`DecodeMessage` reads the marker byte itself, then decodes the fixed fields
and the header array through a decoder configured with the selected byte
order, aligns to 8, reads the body, rebuilds the `Headers` map (later
duplicates overwriting earlier ones) and validates. -/

/-- Errors of the decode pipeline: an `InvalidMessageError` (from the marker
check or the final validation), or an error of the underlying reader /
primitive codec, surfaced verbatim. -/
inductive DecodeError
  | invalid (e : InvalidMessageError)
  | eofErr
  | badTag
deriving DecidableEq

/-- Read one byte from the stream; an empty stream is a reader error. -/
def readByte : List Nat → Except DecodeError (Nat × List Nat)
  | [] => .error .eofErr
  | b :: rest => .ok (b, rest)

/-- Modelled from the spec: the codec reads exactly `n` bytes, propagating a
reader error if the stream ends first. -/
def readBytes : Nat → List Nat → Except DecodeError (List Nat × List Nat)
  | 0, s => .ok ([], s)
  | _ + 1, [] => .error .eofErr
  | n + 1, b :: s =>
    match readBytes n s with
    | .error e => .error e
    | .ok (bs, rest) => .ok (b :: bs, rest)

/-- Modelled from the spec: read a `uint32` in the active byte order. -/
def readU32 (o : ByteOrder) (s : List Nat) : Except DecodeError (Nat × List Nat) :=
  match readBytes 4 s with
  | .error e => .error e
  | .ok (bs, rest) => .ok (decU32 o bs, rest)

/-- Modelled from the spec: decode one tagged variant. -/
def readVariant (o : ByteOrder) (s : List Nat) : Except DecodeError (Variant × List Nat) :=
  match readByte s with
  | .error e => .error e
  | .ok (tag, s1) =>
    if tag = 1 ∨ tag = 2 ∨ tag = 3 then
      match readU32 o s1 with
      | .error e => .error e
      | .ok (len, s2) =>
        match readBytes len s2 with
        | .error e => .error e
        | .ok (bs, s3) =>
          if tag = 1 then .ok (⟨.objPath bs⟩, s3)
          else if tag = 2 then .ok (⟨.str bs⟩, s3)
          else .ok (⟨.sig bs⟩, s3)
    else if tag = 4 then
      match readU32 o s1 with
      | .error e => .error e
      | .ok (n, s2) => .ok (⟨.u32 n⟩, s2)
    else .error .badTag

/-- Modelled from the spec: decode `count` header-array entries in wire
order. -/
def readEntries (o : ByteOrder) : Nat → List Nat →
    Except DecodeError (List (Nat × Variant) × List Nat)
  | 0, s => .ok ([], s)
  | n + 1, s =>
    match readByte s with
    | .error e => .error e
    | .ok (code, s1) =>
      match readVariant o s1 with
      | .error e => .error e
      | .ok (v, s2) =>
        match readEntries o n s2 with
        | .error e => .error e
        | .ok (es, s3) => .ok ((code, v) :: es, s3)

/-- The body read of `DecodeMessage`: `message.Body = make([]byte, length)`
followed by a single `rd.Read(message.Body)`.  A `Read` into a non-empty
buffer returns a reader error only when the stream is exhausted; otherwise it
fills `min(length, available)` bytes in one call and the rest of the buffer
keeps its zero fill.  A zero length skips the read entirely. -/
def readBody (len : Nat) (s : List Nat) : Except DecodeError (List Nat × List Nat) :=
  if len = 0 then .ok ([], s)
  else
    match s with
    | [] => .error .eofErr
    | _ => .ok (s.take len ++ List.replicate (len - s.length) 0, s.drop len)

/-- The raw fields of one wire message, before the `Headers` map is built:
the decoded fixed preamble, the header entries in wire order, and the body. -/
structure RawParts where
  type : Nat
  flags : Nat
  proto : Nat
  length : Nat
  serial : Nat
  entries : List (Nat × Variant)
  body : List Nat
deriving DecidableEq

/-- The read phase of `DecodeMessage` after the marker byte: `DecodeMulti`
for type, flags, protocol version, body length, serial and the header array,
then `dec.align(8)` (the decoder position starts at 1, the marker byte
counting toward the offset), then the body read. -/
def decodeParts (o : ByteOrder) (t : List Nat) : Except DecodeError RawParts :=
  match readByte t with
  | .error e => .error e
  | .ok (ty, s1) =>
    match readByte s1 with
    | .error e => .error e
    | .ok (fl, s2) =>
      match readByte s2 with
      | .error e => .error e
      | .ok (pv, s3) =>
        match readU32 o s3 with
        | .error e => .error e
        | .ok (len, s4) =>
          match readU32 o s4 with
          | .error e => .error e
          | .ok (ser, s5) =>
            match readU32 o s5 with
            | .error e => .error e
            | .ok (cnt, s6) =>
              match readEntries o cnt s6 with
              | .error e => .error e
              | .ok (es, s7) =>
                match readBytes (padTo8 (1 + (t.length - s7.length))) s7 with
                | .error e => .error e
                | .ok (_, s8) =>
                  match readBody len s8 with
                  | .error e => .error e
                  | .ok (bd, _) => .ok ⟨ty, fl, pv, len, ser, es, bd⟩

/-- Go map insertion `message.Headers[k] = v`: replace the entry with the
same key, else add the pair. -/
def insertHeader : List (Nat × Variant) → Nat × Variant → List (Nat × Variant)
  | [], e => [e]
  | x :: xs, e => if x.1 = e.1 then e :: xs else x :: insertHeader xs e

/-- The map-building loop of `DecodeMessage`: starting from the empty map,
insert the decoded entries in wire order, so a later duplicate overwrites an
earlier one. -/
def buildHeaders (es : List (Nat × Variant)) : List (Nat × Variant) :=
  es.foldl insertHeader []

/-- `DecodeMessage` after the byte order has been selected: read the raw
parts, assemble the `Message`, and run `IsValid`, returning only the error on
a validation failure. -/
def decodeWith (o : ByteOrder) (t : List Nat) : Except DecodeError Message :=
  match decodeParts o t with
  | .error e => .error e
  | .ok p =>
    let m : Message := ⟨some o, p.type, p.flags, p.serial, buildHeaders p.entries, p.body⟩
    match m.IsValid with
    | some e => .error (.invalid e)
    | none => .ok m

/-- `DecodeMessage`: read exactly one byte; `'l'` (108) selects little-endian
and `'B'` (66) big-endian for the rest of the message; any other first byte
fails with `InvalidMessageError("invalid byte order")`. -/
def DecodeMessage : List Nat → Except DecodeError Message
  | [] => .error .eofErr
  | b :: t =>
    if b = 108 then decodeWith .littleEndian t
    else if b = 66 then decodeWith .bigEndian t
    else .error (.invalid .invalidByteOrder)

/-! ## Helper lemmas about the codec primitives -/

theorem readBytes_exact (xs r : List Nat) : readBytes xs.length (xs ++ r) = .ok (xs, r) := by
  induction xs with
  | nil => rfl
  | cons b bs ih => simp [readBytes, ih]

theorem encU32_length (o : ByteOrder) (n : Nat) : (encU32 o n).length = 4 := by
  cases o <;> simp [encU32, u32Bytes]

theorem decU32_encU32 (o : ByteOrder) (n : Nat) :
    decU32 o (encU32 o n) = n % 2 ^ 32 := by
  cases o <;> simp only [encU32, u32Bytes, List.reverse_cons, List.reverse_nil,
    List.nil_append, List.cons_append, decU32] <;> omega

theorem readU32_enc (o : ByteOrder) (n : Nat) (r : List Nat) :
    readU32 o (encU32 o n ++ r) = .ok (n % 2 ^ 32, r) := by
  have h4 : (4 : Nat) = (encU32 o n).length := (encU32_length o n).symm
  rw [readU32, h4, readBytes_exact]
  simp [decU32_encU32]

theorem readVariant_enc (o : ByteOrder) (v : VariantValue) (r : List Nat)
    (hother : v ≠ .other) (hwf : v.wfv) :
    readVariant o (encVariant o v ++ r) = .ok (⟨v⟩, r) := by
  cases v with
  | objPath s =>
    obtain ⟨hlen, -⟩ := hwf
    simp only [encVariant, List.cons_append, readVariant, readByte, List.append_assoc,
      readU32_enc, Nat.mod_eq_of_lt hlen]
    norm_num [readBytes_exact]
  | str s =>
    obtain ⟨hlen, -⟩ := hwf
    simp only [encVariant, List.cons_append, readVariant, readByte, List.append_assoc,
      readU32_enc, Nat.mod_eq_of_lt hlen]
    norm_num [readBytes_exact]
  | sig s =>
    obtain ⟨hlen, -⟩ := hwf
    simp only [encVariant, List.cons_append, readVariant, readByte, List.append_assoc,
      readU32_enc, Nat.mod_eq_of_lt hlen]
    norm_num [readBytes_exact]
  | u32 n =>
    simp only [VariantValue.wfv] at hwf
    simp only [encVariant, List.cons_append, readVariant, readByte, readU32_enc,
      Nat.mod_eq_of_lt hwf]
    norm_num
  | other => exact absurd rfl hother

theorem readEntries_enc (o : ByteOrder) (es : List (Nat × Variant)) (r : List Nat)
    (h : ∀ e ∈ es, e.1 < 2 ^ 8 ∧ e.2.value ≠ .other ∧ e.2.value.wfv) :
    readEntries o es.length ((es.map (encHeader o)).flatten ++ r) = .ok (es, r) := by
  induction es with
  | nil => rfl
  | cons e es ih =>
    obtain ⟨hcode, hother, hwf⟩ := h e (by simp)
    have hm : e.1 % 256 = e.1 := Nat.mod_eq_of_lt (by omega)
    simp only [List.map_cons, List.flatten_cons, List.length_cons, List.append_assoc,
      encHeader, readEntries, List.cons_append, readByte,
      readVariant_enc o e.2.value _ hother hwf,
      ih (fun x hx => h x (by simp [hx])), hm]

/-! ## Helper lemmas about the header map -/

/-- Lookup in the association list standing for the Go `Headers` map. -/
def lookupH (hs : List (Nat × Variant)) (k : Nat) : Option Variant :=
  (hs.find? (fun x => x.1 == k)).map Prod.snd

/-- The value of the last entry of `es` with key `k`, in wire order. -/
def lastVal (es : List (Nat × Variant)) (k : Nat) : Option Variant :=
  es.foldl (fun a e => if e.1 = k then some e.2 else a) none

theorem insertHeader_of_not_mem (xs : List (Nat × Variant)) (e : Nat × Variant)
    (h : e.1 ∉ xs.map Prod.fst) : insertHeader xs e = xs ++ [e] := by
  induction xs with
  | nil => rfl
  | cons x xs ih =>
    simp only [List.map_cons, List.mem_cons, not_or] at h
    have hne : ¬ x.1 = e.1 := fun hx => h.1 hx.symm
    simp only [insertHeader, if_neg hne, List.cons_append, ih h.2]

theorem foldl_insertHeader_eq (es : List (Nat × Variant)) :
    ∀ acc, ((acc ++ es).map Prod.fst).Nodup → es.foldl insertHeader acc = acc ++ es := by
  induction es with
  | nil => intro acc _; simp
  | cons e es ih =>
    intro acc hacc
    have hmem : e.1 ∉ acc.map Prod.fst := by
      intro hm
      rw [List.map_append, List.nodup_append] at hacc
      exact hacc.2.2 hm (by simp)
    rw [List.foldl_cons, insertHeader_of_not_mem acc e hmem,
      ih (acc ++ [e]) (by simpa using hacc)]
    simp

theorem buildHeaders_eq_self (es : List (Nat × Variant))
    (h : (es.map Prod.fst).Nodup) : buildHeaders es = es := by
  simpa using foldl_insertHeader_eq es [] (by simpa using h)

theorem lookupH_insertHeader_self (xs : List (Nat × Variant)) (e : Nat × Variant) :
    lookupH (insertHeader xs e) e.1 = some e.2 := by
  induction xs with
  | nil => simp [insertHeader, lookupH, List.find?]
  | cons x xs ih =>
    by_cases hx : x.1 = e.1
    · simp [insertHeader, hx, lookupH, List.find?]
    · simp only [insertHeader, if_neg hx]
      have hbeq : (x.1 == e.1) = false := beq_eq_false_iff_ne.mpr hx
      simpa [lookupH, List.find?_cons, hbeq] using ih

theorem lookupH_insertHeader_ne (xs : List (Nat × Variant)) (e : Nat × Variant)
    (k : Nat) (hk : k ≠ e.1) : lookupH (insertHeader xs e) k = lookupH xs k := by
  have hbek : (e.1 == k) = false := beq_eq_false_iff_ne.mpr (Ne.symm hk)
  induction xs with
  | nil => simp [insertHeader, lookupH, List.find?, hbek]
  | cons x xs ih =>
    by_cases hx : x.1 = e.1
    · have hbxk : (x.1 == k) = false := beq_eq_false_iff_ne.mpr (hx ▸ Ne.symm hk)
      simp [insertHeader, hx, lookupH, List.find?_cons, hbek, hbxk]
    · simp only [insertHeader, if_neg hx]
      by_cases hxk : (x.1 == k) = true
      · simp [lookupH, List.find?_cons, hxk]
      · have hxk' : (x.1 == k) = false := by simpa using hxk
        simpa [lookupH, List.find?_cons, hxk'] using ih

theorem mem_keys_insertHeader (xs : List (Nat × Variant)) (e : Nat × Variant)
    (k : Nat) : k ∈ (insertHeader xs e).map Prod.fst ↔
      k ∈ xs.map Prod.fst ∨ k = e.1 := by
  induction xs with
  | nil => simp [insertHeader]
  | cons x xs ih =>
    by_cases hx : x.1 = e.1
    · rw [show insertHeader (x :: xs) e = e :: xs from by
        unfold insertHeader; rw [if_pos hx]]
      simp only [List.map_cons, List.mem_cons, hx]
      tauto
    · simp only [insertHeader, if_neg hx, List.map_cons, List.mem_cons, ih]
      tauto

theorem nodup_keys_insertHeader (xs : List (Nat × Variant)) (e : Nat × Variant)
    (h : (xs.map Prod.fst).Nodup) : ((insertHeader xs e).map Prod.fst).Nodup := by
  induction xs with
  | nil => simp [insertHeader]
  | cons x xs ih =>
    simp only [List.map_cons, List.nodup_cons] at h
    by_cases hx : x.1 = e.1
    · simp only [insertHeader, if_pos hx, List.map_cons, List.nodup_cons]
      exact ⟨hx ▸ h.1, h.2⟩
    · simp only [insertHeader, if_neg hx, List.map_cons, List.nodup_cons,
        mem_keys_insertHeader]
      refine ⟨?_, ih h.2⟩
      rintro (hm | hm)
      · exact h.1 hm
      · exact hx hm

theorem nodup_keys_buildHeaders (es : List (Nat × Variant)) :
    ((buildHeaders es).map Prod.fst).Nodup := by
  suffices haux : ∀ acc : List (Nat × Variant), (acc.map Prod.fst).Nodup →
      ((es.foldl insertHeader acc).map Prod.fst).Nodup from haux [] (by simp)
  induction es with
  | nil => intro acc hacc; simpa using hacc
  | cons e es ih =>
    intro acc hacc
    exact ih (insertHeader acc e) (nodup_keys_insertHeader acc e hacc)

theorem lookupH_foldl_insertHeader (es : List (Nat × Variant)) :
    ∀ (acc : List (Nat × Variant)) (k : Nat),
      lookupH (es.foldl insertHeader acc) k =
        es.foldl (fun a e => if e.1 = k then some e.2 else a) (lookupH acc k) := by
  induction es with
  | nil => intro acc k; rfl
  | cons e es ih =>
    intro acc k
    rw [List.foldl_cons, List.foldl_cons, ih (insertHeader acc e)]
    congr 1
    by_cases hk : e.1 = k
    · subst hk
      rw [if_pos rfl, lookupH_insertHeader_self]
    · rw [if_neg hk, lookupH_insertHeader_ne acc e k (fun h => hk h.symm)]

theorem lookupH_buildHeaders (es : List (Nat × Variant)) (k : Nat) :
    lookupH (buildHeaders es) k = lastVal es k := by
  have h := lookupH_foldl_insertHeader es [] k
  simpa [buildHeaders, lastVal, lookupH, List.find?] using h

theorem mem_keys_foldl_insertHeader (es : List (Nat × Variant)) :
    ∀ (acc : List (Nat × Variant)) (k : Nat),
      (k ∈ (es.foldl insertHeader acc).map Prod.fst ↔
        k ∈ acc.map Prod.fst ∨ k ∈ es.map Prod.fst) := by
  induction es with
  | nil => intro acc k; simp
  | cons e es ih =>
    intro acc k
    rw [List.foldl_cons, ih (insertHeader acc e)]
    simp only [mem_keys_insertHeader, List.map_cons, List.mem_cons]
    tauto

theorem mem_keys_buildHeaders (es : List (Nat × Variant)) (k : Nat) :
    k ∈ (buildHeaders es).map Prod.fst ↔ k ∈ es.map Prod.fst := by
  have h := mem_keys_foldl_insertHeader es [] k
  simpa [buildHeaders] using h

/-! ## Helper lemmas about the validator -/

theorem hasKey_iff (hs : List (Nat × Variant)) (k : Nat) :
    hasKey hs k = true ↔ k ∈ hs.map Prod.fst := by
  simp [hasKey, List.any_eq_true, List.mem_map]

/-- A single header entry passes the validator's per-entry checks. -/
def entryOk (e : Nat × Variant) : Prop :=
  (1 ≤ e.1 ∧ e.1 ≤ 9) ∧ fieldTypes e.1 = some e.2.value.rtype

instance : DecidablePred entryOk := by
  intro e
  unfold entryOk
  infer_instance

theorem checkHeaders_cons (e : Nat × Variant) (hs : List (Nat × Variant)) :
    checkHeaders (e :: hs) =
      if e.1 = 0 ∨ fieldMax ≤ e.1 then some .invalidHeader
      else if fieldTypes e.1 ≠ some e.2.value.rtype then some .invalidHeaderType
      else checkHeaders hs := rfl

theorem checkHeaders_eq_none_iff (hs : List (Nat × Variant)) :
    checkHeaders hs = none ↔ ∀ e ∈ hs, entryOk e := by
  induction hs with
  | nil => simp [checkHeaders]
  | cons e hs ih =>
    rw [checkHeaders_cons]
    by_cases h1 : e.1 = 0 ∨ fieldMax ≤ e.1
    · simp only [if_pos h1]
      constructor
      · intro h; cases h
      · intro h
        obtain ⟨⟨hlo, hhi⟩, -⟩ := h e (by simp)
        exact absurd h1 (by unfold fieldMax; omega)
    · rw [if_neg h1]
      by_cases h2 : fieldTypes e.1 ≠ some e.2.value.rtype
      · simp only [if_pos h2]
        constructor
        · intro h; cases h
        · intro h
          exact absurd (h e (by simp)).2 h2
      · rw [if_neg h2, ih]
        push_neg at h2
        constructor
        · intro h x hx
          rcases List.mem_cons.mp hx with rfl | hx
          · exact ⟨by unfold fieldMax at h1; omega, h2⟩
          · exact h x hx
        · intro h x hx
          exact h x (by simp [hx])

theorem checkHeaders_first_bad (pre : List (Nat × Variant)) (e : Nat × Variant)
    (post : List (Nat × Variant)) (hpre : ∀ x ∈ pre, entryOk x) (hbad : ¬ entryOk e) :
    checkHeaders (pre ++ e :: post) =
      some (if e.1 = 0 ∨ fieldMax ≤ e.1 then .invalidHeader else .invalidHeaderType) := by
  induction pre with
  | nil =>
    rw [List.nil_append, checkHeaders_cons]
    by_cases h1 : e.1 = 0 ∨ fieldMax ≤ e.1
    · simp only [if_pos h1]
    · have hb : 1 ≤ e.1 ∧ e.1 ≤ 9 := by unfold fieldMax at h1; omega
      have h2 : fieldTypes e.1 ≠ some e.2.value.rtype := fun hty => hbad ⟨hb, hty⟩
      simp only [if_neg h1, if_pos h2]
  | cons x pre ih =>
    obtain ⟨⟨hlo, hhi⟩, hty⟩ := hpre x (by simp)
    have hc1 : ¬ (x.1 = 0 ∨ fieldMax ≤ x.1) := by unfold fieldMax; omega
    have hc2 : ¬ fieldTypes x.1 ≠ some x.2.value.rtype := by simp [hty]
    rw [List.cons_append, checkHeaders_cons, if_neg hc1, if_neg hc2]
    exact ih (fun y hy => hpre y (by simp [hy]))

set_option maxRecDepth 4000 in
theorem flags_byte_iff : ∀ f < 256, ((f &&& 252 = 0) ↔ f < 4) := by decide

theorem fieldTypes_not_other (k : Nat) : fieldTypes k ≠ some .otherType := by
  match k with
  | 0 => simp [fieldTypes]
  | 1 => simp [fieldTypes]
  | 2 => simp [fieldTypes]
  | 3 => simp [fieldTypes]
  | 4 => simp [fieldTypes]
  | 5 => simp [fieldTypes]
  | 6 => simp [fieldTypes]
  | 7 => simp [fieldTypes]
  | 8 => simp [fieldTypes]
  | 9 => simp [fieldTypes]
  | n + 10 => simp [show fieldTypes (n + 10) = none from rfl]

theorem entryOk_value_ne_other (e : Nat × Variant) (h : entryOk e) :
    e.2.value ≠ .other := by
  intro hv
  have := h.2
  rw [hv] at this
  exact fieldTypes_not_other e.1 this

theorem IsValid_order_err (m : Message) (h : m.order = none) :
    m.IsValid = some .invalidByteOrder := by
  unfold Message.IsValid
  rw [if_pos h]

theorem IsValid_flags_err (m : Message) (h1 : m.order ≠ none)
    (h2 : m.flags &&& 252 ≠ 0) : m.IsValid = some .invalidFlags := by
  unfold Message.IsValid
  rw [if_neg h1, if_pos h2]

theorem IsValid_type_err (m : Message) (h1 : m.order ≠ none)
    (h2 : m.flags &&& 252 = 0) (h3 : m.type = 0 ∨ typeMax ≤ m.type) :
    m.IsValid = some .invalidMessageType := by
  unfold Message.IsValid
  rw [if_neg h1, if_neg (show ¬ m.flags &&& 252 ≠ 0 from by simpa using h2), if_pos h3]

theorem IsValid_headers_err (m : Message) (e : InvalidMessageError)
    (h1 : m.order ≠ none) (h2 : m.flags &&& 252 = 0)
    (h3 : ¬ (m.type = 0 ∨ typeMax ≤ m.type)) (h4 : checkHeaders m.headers = some e) :
    m.IsValid = some e := by
  unfold Message.IsValid
  rw [if_neg h1, if_neg (show ¬ m.flags &&& 252 ≠ 0 from by simpa using h2),
    if_neg h3, if_pos (show checkHeaders m.headers ≠ none from by simp [h4]), h4]

theorem IsValid_required_err (m : Message) (h1 : m.order ≠ none)
    (h2 : m.flags &&& 252 = 0) (h3 : ¬ (m.type = 0 ∨ typeMax ≤ m.type))
    (h4 : checkHeaders m.headers = none)
    (h5 : ¬ ((requiredFields m.type).all (fun f => hasKey m.headers f))) :
    m.IsValid = some .missingRequiredHeader := by
  unfold Message.IsValid
  rw [if_neg h1, if_neg (show ¬ m.flags &&& 252 ≠ 0 from by simpa using h2),
    if_neg h3, if_neg (show ¬ checkHeaders m.headers ≠ none from by simp [h4]),
    if_pos h5]

theorem IsValid_sig_err (m : Message) (h1 : m.order ≠ none)
    (h2 : m.flags &&& 252 = 0) (h3 : ¬ (m.type = 0 ∨ typeMax ≤ m.type))
    (h4 : checkHeaders m.headers = none)
    (h5 : (requiredFields m.type).all (fun f => hasKey m.headers f))
    (h6 : m.body ≠ [] ∧ ¬ hasKey m.headers FieldSignature) :
    m.IsValid = some .missingSignature := by
  unfold Message.IsValid
  rw [if_neg h1, if_neg (show ¬ m.flags &&& 252 ≠ 0 from by simpa using h2),
    if_neg h3, if_neg (show ¬ checkHeaders m.headers ≠ none from by simp [h4]),
    if_neg (show ¬ ¬ ((requiredFields m.type).all (fun f => hasKey m.headers f)) from
      not_not.mpr h5), if_pos h6]

/-- The full characterization of `IsValid = none` in terms of the source's
own conditions. -/
theorem IsValid_eq_none_iff (m : Message) :
    m.IsValid = none ↔
      m.order ≠ none ∧ m.flags &&& 252 = 0 ∧ 1 ≤ m.type ∧ m.type < typeMax ∧
      checkHeaders m.headers = none ∧
      (∀ f ∈ requiredFields m.type, hasKey m.headers f = true) ∧
      (m.body ≠ [] → hasKey m.headers FieldSignature = true) := by
  constructor
  · intro h
    have h1 : m.order ≠ none := by
      intro ho
      rw [IsValid_order_err m ho] at h
      cases h
    have h2 : m.flags &&& 252 = 0 := by
      by_contra hf
      rw [IsValid_flags_err m h1 hf] at h
      cases h
    have h3 : ¬ (m.type = 0 ∨ typeMax ≤ m.type) := by
      intro ht
      rw [IsValid_type_err m h1 h2 ht] at h
      cases h
    have h4 : checkHeaders m.headers = none := by
      by_contra hch
      obtain ⟨e, he⟩ := Option.ne_none_iff_exists'.mp hch
      rw [IsValid_headers_err m e h1 h2 h3 he] at h
      cases h
    have h5 : ((requiredFields m.type).all (fun f => hasKey m.headers f)) = true := by
      by_contra hr
      rw [IsValid_required_err m h1 h2 h3 h4 hr] at h
      cases h
    have h6 : m.body ≠ [] → hasKey m.headers FieldSignature = true := by
      intro hb
      by_contra hk
      rw [IsValid_sig_err m h1 h2 h3 h4 h5 ⟨hb, hk⟩] at h
      cases h
    refine ⟨h1, h2, ?_, ?_, h4, List.all_eq_true.mp h5, h6⟩
    · unfold typeMax at h3; omega
    · unfold typeMax at h3 ⊢; omega
  · rintro ⟨h1, h2, h3a, h3b, h4, h5, h6⟩
    unfold Message.IsValid
    rw [if_neg h1, if_neg (show ¬ m.flags &&& 252 ≠ 0 from by simpa using h2),
      if_neg (show ¬ (m.type = 0 ∨ typeMax ≤ m.type) from by
        unfold typeMax at h3b ⊢; omega),
      if_neg (show ¬ checkHeaders m.headers ≠ none from by simp [h4]),
      if_neg (show ¬ ¬ ((requiredFields m.type).all (fun f => hasKey m.headers f)) from
        not_not.mpr (List.all_eq_true.mpr h5)),
      if_neg (show ¬ (m.body ≠ [] ∧ ¬ hasKey m.headers FieldSignature) from by
        rintro ⟨hb, hk⟩; exact hk (h6 hb))]

/-! ## Claim C3: the validator's characterization -/

/-- C3: `IsValid` succeeds exactly when the byte order is little- or
big-endian, the flags have no bits outside NoReplyExpected (1) and
NoAutoStart (2) — for a flags byte that is exactly `flags < 4` —, the type
is one of the four known non-zero variants, every header key is a known
non-zero field code whose value's runtime type matches the registry's
expected type, every required field for the type is present, and a
non-empty body has a Signature header.  On failure it returns the
discriminated error kind of the first violated check, in that order
(first-failure, no accumulation); inside the header iteration the first
offending entry decides between the unknown-code and the type-mismatch
kinds.  The embedding of `IsValid` is a pure function of the message, so it
can have no side effect on it. -/
theorem c3_isvalid_characterization (m : Message) (hwf : m.wf) :
    (m.IsValid = none ↔
      ((m.order = some .littleEndian ∨ m.order = some .bigEndian) ∧
       m.flags < 4 ∧
       (m.type = TypeMethodCall ∨ m.type = TypeMethodReply ∨
         m.type = TypeError ∨ m.type = TypeSignal) ∧
       (∀ e ∈ m.headers, (1 ≤ e.1 ∧ e.1 < fieldMax) ∧
         fieldTypes e.1 = some e.2.value.rtype) ∧
       (∀ f ∈ requiredFields m.type, f ∈ m.headers.map Prod.fst) ∧
       (m.body ≠ [] → FieldSignature ∈ m.headers.map Prod.fst))) ∧
    (m.order = none → m.IsValid = some .invalidByteOrder) ∧
    (m.order ≠ none → ¬ m.flags < 4 → m.IsValid = some .invalidFlags) ∧
    (m.order ≠ none → m.flags < 4 → (m.type = 0 ∨ typeMax ≤ m.type) →
      m.IsValid = some .invalidMessageType) ∧
    (∀ pre e post, m.order ≠ none → m.flags < 4 →
      ¬ (m.type = 0 ∨ typeMax ≤ m.type) →
      m.headers = pre ++ e :: post → (∀ x ∈ pre, entryOk x) → ¬ entryOk e →
      m.IsValid = some (if e.1 = 0 ∨ fieldMax ≤ e.1 then .invalidHeader
        else .invalidHeaderType)) ∧
    (m.order ≠ none → m.flags < 4 → ¬ (m.type = 0 ∨ typeMax ≤ m.type) →
      (∀ e ∈ m.headers, entryOk e) →
      (∃ f ∈ requiredFields m.type, f ∉ m.headers.map Prod.fst) →
      m.IsValid = some .missingRequiredHeader) ∧
    (m.order ≠ none → m.flags < 4 → ¬ (m.type = 0 ∨ typeMax ≤ m.type) →
      (∀ e ∈ m.headers, entryOk e) →
      (∀ f ∈ requiredFields m.type, f ∈ m.headers.map Prod.fst) →
      m.body ≠ [] → FieldSignature ∉ m.headers.map Prod.fst →
      m.IsValid = some .missingSignature) := by
  have h256 : m.flags < 256 := by
    have h := hwf.2.1
    norm_num at h
    exact h
  have hflags : (m.flags &&& 252 = 0) ↔ m.flags < 4 := flags_byte_iff m.flags h256
  have horder : (m.order ≠ none) ↔
      (m.order = some ByteOrder.littleEndian ∨ m.order = some ByteOrder.bigEndian) := by
    cases hm : m.order with
    | none => simp
    | some o => cases o <;> simp
  refine ⟨?_, IsValid_order_err m, ?_, ?_, ?_, ?_, ?_⟩
  · rw [IsValid_eq_none_iff]
    constructor
    · rintro ⟨h1, h2, h3a, h3b, h4, h5, h6⟩
      refine ⟨horder.mp h1, hflags.mp h2, ?_, ?_, ?_, fun hb => ?_⟩
      · unfold typeMax at h3b
        unfold TypeMethodCall TypeMethodReply TypeError TypeSignal
        omega
      · intro e he
        obtain ⟨⟨ha, hb9⟩, hc⟩ := (checkHeaders_eq_none_iff m.headers).mp h4 e he
        exact ⟨⟨ha, by unfold fieldMax; omega⟩, hc⟩
      · intro f hf
        exact (hasKey_iff m.headers f).mp (h5 f hf)
      · exact (hasKey_iff m.headers FieldSignature).mp (h6 hb)
    · rintro ⟨h1, h2, h3, h4, h5, h6⟩
      refine ⟨horder.mpr h1, hflags.mpr h2, ?_, ?_, ?_, ?_, fun hb => ?_⟩
      · unfold TypeMethodCall TypeMethodReply TypeError TypeSignal at h3
        omega
      · unfold TypeMethodCall TypeMethodReply TypeError TypeSignal at h3
        unfold typeMax
        omega
      · refine (checkHeaders_eq_none_iff m.headers).mpr fun e he => ?_
        obtain ⟨⟨ha, hb10⟩, hc⟩ := h4 e he
        exact ⟨⟨ha, by unfold fieldMax at hb10; omega⟩, hc⟩
      · intro f hf
        exact (hasKey_iff m.headers f).mpr (h5 f hf)
      · exact (hasKey_iff m.headers FieldSignature).mpr (h6 hb)
  · intro h1 hlt
    exact IsValid_flags_err m h1 (fun h0 => hlt (hflags.mp h0))
  · intro h1 h2 h3
    exact IsValid_type_err m h1 (hflags.mpr h2) h3
  · intro pre e post h1 h2 h3 hsplit hpre hbad
    refine IsValid_headers_err m _ h1 (hflags.mpr h2) h3 ?_
    rw [hsplit]
    exact checkHeaders_first_bad pre e post hpre hbad
  · rintro h1 h2 h3 hok ⟨f, hf, hnf⟩
    refine IsValid_required_err m h1 (hflags.mpr h2) h3
      ((checkHeaders_eq_none_iff m.headers).mpr hok) ?_
    intro hall
    exact hnf ((hasKey_iff m.headers f).mp (List.all_eq_true.mp hall f hf))
  · intro h1 h2 h3 hok hreq hb hnsig
    exact IsValid_sig_err m h1 (hflags.mpr h2) h3
      ((checkHeaders_eq_none_iff m.headers).mpr hok)
      (List.all_eq_true.mpr fun f hf => (hasKey_iff m.headers f).mpr (hreq f hf))
      ⟨hb, fun hk => hnsig ((hasKey_iff m.headers FieldSignature).mp hk)⟩

/-- A well-formed valid method-call message, for the C3 witness. -/
def mW3 : Message :=
  ⟨some .littleEndian, 1, 0, 7, [(1, ⟨.objPath [47]⟩), (3, ⟨.str [70]⟩)], []⟩

/-- Witness for C3: a concrete well-formed message satisfying all the
claim's invariants is accepted by the validator. -/
theorem c3_isvalid_characterization_witness :
    Message.wf mW3 ∧ mW3.IsValid = none :=
  ⟨by decide, (c3_isvalid_characterization mW3 (by decide)).1.mpr (by decide)⟩

/-! ## Claim C4: unknown byte-order marker -/

/-- C4: a first byte that is neither `'l'` (108) nor `'B'` (66) makes
`DecodeMessage` fail with the invalid-byte-order framing error, and the
result does not depend on any byte after the first — no further bytes are
read.  A first byte `'l'` hands the rest of the stream to the little-endian
decode pipeline and `'B'` to the big-endian one. -/
theorem c4_invalid_marker :
    (∀ b t1 t2 : _, b ≠ 108 → b ≠ 66 →
      DecodeMessage (b :: t1) = .error (.invalid .invalidByteOrder) ∧
      DecodeMessage (b :: t1) = DecodeMessage (b :: t2)) ∧
    (∀ t, DecodeMessage (108 :: t) = decodeWith .littleEndian t) ∧
    (∀ t, DecodeMessage (66 :: t) = decodeWith .bigEndian t) := by
  refine ⟨?_, fun t => by simp [DecodeMessage], fun t => by simp [DecodeMessage]⟩
  intro b t1 t2 h1 h2
  constructor <;> simp [DecodeMessage, h1, h2]

/-- Witness for C4 at the concrete first byte `0x41` (`'A'`). -/
theorem c4_invalid_marker_witness :
    DecodeMessage [65] = .error (.invalid .invalidByteOrder) ∧
    DecodeMessage [65] = DecodeMessage [65, 1, 2, 3] :=
  c4_invalid_marker.1 65 [] [1, 2, 3] (by decide) (by decide)

/-! ## Claim C5: required-header enforcement -/

/-- C5: when all earlier checks pass but a header field required for the
message type is absent, `IsValid` fails with the missing-required-header
error; the required-fields table binds MethodCall to Path and Member,
MethodReply to ReplySerial, Error to ErrorName and ReplySerial, and Signal
to Path, Interface and Member. -/
theorem c5_missing_required_header (m : Message)
    (h1 : m.order ≠ none) (h2 : m.flags < 4)
    (h3 : ¬ (m.type = 0 ∨ typeMax ≤ m.type))
    (h4 : ∀ e ∈ m.headers, entryOk e)
    (h5 : ∃ f ∈ requiredFields m.type, f ∉ m.headers.map Prod.fst) :
    m.IsValid = some .missingRequiredHeader ∧
    requiredFields TypeMethodCall = [FieldPath, FieldMember] ∧
    requiredFields TypeMethodReply = [FieldReplySerial] ∧
    requiredFields TypeError = [FieldErrorName, FieldReplySerial] ∧
    requiredFields TypeSignal = [FieldPath, FieldInterface, FieldMember] := by
  refine ⟨?_, rfl, rfl, rfl, rfl⟩
  obtain ⟨f, hf, hnf⟩ := h5
  refine IsValid_required_err m h1 ((flags_byte_iff m.flags (by omega)).mpr h2) h3
    ((checkHeaders_eq_none_iff m.headers).mpr h4) ?_
  intro hall
  exact hnf ((hasKey_iff m.headers f).mp (List.all_eq_true.mp hall f hf))

/-- A method-call message with a Path header but no Member header, for the
C5 witness. -/
def mW5 : Message := ⟨some .littleEndian, 1, 0, 1, [(1, ⟨.objPath [47]⟩)], []⟩

/-- Witness for C5: the concrete MethodCall missing its Member header fails
with the missing-required-header error. -/
theorem c5_missing_required_header_witness :
    mW5.IsValid = some .missingRequiredHeader :=
  (c5_missing_required_header mW5 (by decide) (by decide) (by decide)
    (by decide) (by decide)).1

/-! ## Claim C6: signature requirement for non-empty bodies -/

/-- C6: with all other checks passing, a non-empty body without a Signature
header fails validation with the missing-signature error; the same headers
with a Signature present pass, and an empty body passes with no Signature
header required. -/
theorem c6_signature_requirement (m : Message)
    (h1 : m.order ≠ none) (h2 : m.flags < 4)
    (h3 : ¬ (m.type = 0 ∨ typeMax ≤ m.type))
    (h4 : ∀ e ∈ m.headers, entryOk e)
    (h5 : ∀ f ∈ requiredFields m.type, f ∈ m.headers.map Prod.fst) :
    (m.body ≠ [] → FieldSignature ∉ m.headers.map Prod.fst →
      m.IsValid = some .missingSignature) ∧
    (FieldSignature ∈ m.headers.map Prod.fst → m.IsValid = none) ∧
    (m.body = [] → m.IsValid = none) := by
  have hfl : m.flags &&& 252 = 0 := (flags_byte_iff m.flags (by omega)).mpr h2
  have hta : 1 ≤ m.type := by unfold typeMax at h3; omega
  have htb : m.type < typeMax := by unfold typeMax at h3 ⊢; omega
  have hch : checkHeaders m.headers = none := (checkHeaders_eq_none_iff m.headers).mpr h4
  have hreq : ∀ f ∈ requiredFields m.type, hasKey m.headers f = true :=
    fun f hf => (hasKey_iff m.headers f).mpr (h5 f hf)
  refine ⟨?_, ?_, ?_⟩
  · intro hb hnsig
    exact IsValid_sig_err m h1 hfl h3 hch (List.all_eq_true.mpr hreq)
      ⟨hb, fun hk => hnsig ((hasKey_iff m.headers FieldSignature).mp hk)⟩
  · intro hsig
    exact (IsValid_eq_none_iff m).mpr ⟨h1, hfl, hta, htb, hch, hreq,
      fun _ => (hasKey_iff m.headers FieldSignature).mpr hsig⟩
  · intro hbody
    exact (IsValid_eq_none_iff m).mpr ⟨h1, hfl, hta, htb, hch, hreq,
      fun hb => (hb hbody).elim⟩

/-- A method-reply with a non-empty body and no Signature header. -/
def mW6 : Message := ⟨some .littleEndian, 2, 0, 1, [(5, ⟨.u32 3⟩)], [9]⟩

/-- The same message with a Signature header added. -/
def mW6sig : Message :=
  ⟨some .littleEndian, 2, 0, 1, [(5, ⟨.u32 3⟩), (8, ⟨.sig [115]⟩)], [9]⟩

/-- The same message with an empty body and no Signature header. -/
def mW6empty : Message := ⟨some .littleEndian, 2, 0, 1, [(5, ⟨.u32 3⟩)], []⟩

/-- Witness for C6 on the three concrete variants. -/
theorem c6_signature_requirement_witness :
    mW6.IsValid = some .missingSignature ∧ mW6sig.IsValid = none ∧
    mW6empty.IsValid = none :=
  ⟨(c6_signature_requirement mW6 (by decide) (by decide) (by decide) (by decide)
      (by decide)).1 (by decide) (by decide),
   (c6_signature_requirement mW6sig (by decide) (by decide) (by decide) (by decide)
      (by decide)).2.1 (by decide),
   (c6_signature_requirement mW6empty (by decide) (by decide) (by decide) (by decide)
      (by decide)).2.2 (by rfl)⟩

/-! ## Claim C7: validation failure writes nothing -/

/-- C7: `EncodeTo` runs the validator first; on failure it returns that
validation error and performs no write on the sink, and on success the whole
assembled byte sequence goes to the sink in a single write operation. -/
theorem c7_no_partial_write_on_invalid (m : Message) :
    (∀ e, m.IsValid = some e → m.EncodeTo = (some e, [])) ∧
    (m.IsValid = none → m.EncodeTo = (none, [m.encodeBytes])) := by
  constructor
  · intro e he
    unfold Message.EncodeTo
    rw [he]
  · intro h
    unfold Message.EncodeTo
    rw [h]

/-- A message with an invalid byte order, for the C7 witness. -/
def mBad7 : Message := ⟨none, 1, 0, 0, [], []⟩

/-- A valid method-call message, for the C7 witness. -/
def mW7 : Message :=
  ⟨some .littleEndian, 1, 0, 7, [(1, ⟨.objPath [47]⟩), (3, ⟨.str [70]⟩)], []⟩

/-- Witness for C7: an invalid message yields the error and an empty write
list, a valid one a single write of the assembled buffer. -/
theorem c7_no_partial_write_on_invalid_witness :
    mBad7.EncodeTo = (some .invalidByteOrder, []) ∧
    mW7.EncodeTo = (none, [mW7.encodeBytes]) :=
  ⟨(c7_no_partial_write_on_invalid mBad7).1 .invalidByteOrder (by rfl),
   (c7_no_partial_write_on_invalid mW7).2 (by rfl)⟩

/-! ## Claims C8 and C2: layout of the encoded bytes -/

theorem u32Bytes_length (n : Nat) : (u32Bytes n).length = 4 := rfl

/-- The encoded buffer after the 4 one-byte fields: body length, serial,
header-array count, entry bytes, padding, body. -/
theorem encodeBytes_drop4 (m : Message) :
    m.encodeBytes.drop 4 =
      encU32 .littleEndian m.body.length ++ (encU32 .littleEndian m.serial ++
        (encU32 .littleEndian m.headers.length ++
          ((m.headers.map (encHeader .littleEndian)).flatten ++
            (List.replicate (padTo8 m.encodeHead.length) 0 ++ m.body)))) := by
  unfold Message.encodeBytes Message.encodeHead encHeaderArray
  simp only [List.cons_append, List.drop_succ_cons, List.drop_zero, List.append_assoc]

theorem encodeBytes_drop8 (m : Message) :
    m.encodeBytes.drop 8 =
      encU32 .littleEndian m.serial ++ (encU32 .littleEndian m.headers.length ++
        ((m.headers.map (encHeader .littleEndian)).flatten ++
          (List.replicate (padTo8 m.encodeHead.length) 0 ++ m.body))) := by
  have h : m.encodeBytes.drop 8 = (m.encodeBytes.drop 4).drop 4 := by
    rw [List.drop_drop]
  rw [h, encodeBytes_drop4, List.drop_left' (encU32_length _ _)]

theorem encodeBytes_drop12 (m : Message) :
    m.encodeBytes.drop 12 =
      encU32 .littleEndian m.headers.length ++
        ((m.headers.map (encHeader .littleEndian)).flatten ++
          (List.replicate (padTo8 m.encodeHead.length) 0 ++ m.body)) := by
  have h : m.encodeBytes.drop 12 = (m.encodeBytes.drop 8).drop 4 := by
    rw [List.drop_drop]
  rw [h, encodeBytes_drop8, List.drop_left' (encU32_length _ _)]

/-- C8: the body-length field written at offsets 4–7 of the encoded message
is the little-endian `uint32` reduction of the actual byte count of `Body`
(not a caller-supplied field), it decodes back to that byte count, and the
full buffer is the head followed by the 8-alignment zero padding followed by
the body bytes verbatim (an empty body appends nothing). -/
theorem c8_body_length_from_body (m : Message) (hlen : m.body.length < 2 ^ 32) :
    (m.encodeBytes.drop 4).take 4 = u32Bytes m.body.length ∧
    decU32 .littleEndian ((m.encodeBytes.drop 4).take 4) = m.body.length ∧
    m.encodeBytes =
      m.encodeHead ++ List.replicate (padTo8 m.encodeHead.length) 0 ++ m.body ∧
    (m.encodeHead ++ List.replicate (padTo8 m.encodeHead.length) 0).length % 8 = 0 := by
  have htake : (m.encodeBytes.drop 4).take 4 = encU32 .littleEndian m.body.length := by
    rw [encodeBytes_drop4]
    exact List.take_left' (encU32_length _ _)
  refine ⟨htake, ?_, rfl, ?_⟩
  · rw [htake, decU32_encU32]
    exact Nat.mod_eq_of_lt hlen
  · simp only [List.length_append, List.length_replicate, padTo8]
    omega

/-- A valid method-reply with signature header and two body bytes, for the
C8 witness. -/
def mW8 : Message :=
  ⟨some .littleEndian, 2, 0, 1, [(5, ⟨.u32 3⟩), (8, ⟨.sig [115]⟩)], [9, 8]⟩

/-- Witness for C8 at a concrete message with a two-byte body. -/
theorem c8_body_length_from_body_witness :
    mW8.body.length < 2 ^ 32 ∧
    (mW8.encodeBytes.drop 4).take 4 = u32Bytes mW8.body.length :=
  ⟨by decide, (c8_body_length_from_body mW8 (by decide)).1⟩

/-- `message` with its `Order` field replaced. -/
def Message.withOrder (m : Message) (o : ByteOrder) : Message :=
  { m with order := some o }

/-- C2: the byte-order marker at byte 0 is taken from the message's `Order`
field (`'l'` = 108 for little-endian, `'B'` = 66 for big-endian), while every
byte after the marker — in particular the multi-byte body-length, serial and
header-array-count fields — is identical for the two orders and is written in
little-endian, because the encoder is always constructed with
`binary.LittleEndian`.  `DecodeMessage`, in contrast, hands the stream after
the marker to the decode pipeline configured with whichever order the marker
byte selects, and the `uint32` reader of that pipeline gives different values
to the two orders on the same wire bytes. -/
theorem c2_encode_little_endian_decode_marker (m : Message) (o : ByteOrder)
    (t : List Nat) :
    ((m.withOrder .littleEndian).encodeBytes.head? = some 108 ∧
     (m.withOrder .bigEndian).encodeBytes.head? = some 66 ∧
     (m.withOrder .littleEndian).encodeBytes.tail =
       (m.withOrder .bigEndian).encodeBytes.tail) ∧
    (((m.withOrder o).encodeBytes.drop 4).take 4 = u32Bytes m.body.length ∧
     ((m.withOrder o).encodeBytes.drop 8).take 4 = u32Bytes m.serial ∧
     ((m.withOrder o).encodeBytes.drop 12).take 4 = u32Bytes m.headers.length) ∧
    (DecodeMessage (108 :: t) = decodeWith .littleEndian t ∧
     DecodeMessage (66 :: t) = decodeWith .bigEndian t ∧
     decU32 .littleEndian [1, 0, 0, 0] = 1 ∧
     decU32 .bigEndian [1, 0, 0, 0] = 16777216) := by
  refine ⟨⟨rfl, rfl, rfl⟩, ⟨?_, ?_, ?_⟩,
    by simp [DecodeMessage], by simp [DecodeMessage], by decide, by decide⟩
  · rw [encodeBytes_drop4]
    exact List.take_left' (encU32_length _ _)
  · rw [encodeBytes_drop8]
    exact List.take_left' (encU32_length _ _)
  · rw [encodeBytes_drop12]
    exact List.take_left' (encU32_length _ _)

/-! ## Claim C9: body read on a truncated stream

`DecodeMessage` allocates `make([]byte, length)` and issues a single
`rd.Read(message.Body)`, ignoring the returned byte count.  A reader that
still holds at least one byte but fewer than `length` returns a short read
without an error, so decoding succeeds with a body whose suffix is the zero
fill of the allocation rather than stream bytes — the code does not read
exactly `length` bytes as the specification's decode contract states. -/

/-- A valid two-byte-body message whose encoding gets truncated by one byte. -/
def mC9 : Message :=
  ⟨some .littleEndian, 2, 0, 1, [(5, ⟨.u32 9⟩), (8, ⟨.sig [115]⟩)], [7, 9]⟩

/-- The message `DecodeMessage` actually produces from the truncated stream:
same fields, but the body is `[7, 0]` — one stream byte and one zero-fill
byte — although the body-length field says 2 and the stream holds only one
body byte. -/
def mC9decoded : Message :=
  ⟨some .littleEndian, 2, 0, 1, [(5, ⟨.u32 9⟩), (8, ⟨.sig [115]⟩)], [7, 0]⟩

/-- Evaluation of the code at the failing input for C9: `mC9` is valid and
encodes with last byte 9 (its second body byte); dropping that byte leaves a
stream whose body section holds a single byte `7`, yet `DecodeMessage`
succeeds and returns a 2-byte body `[7, 0]` whose second byte never came
from the stream. -/
theorem c9_truncated_body_zero_fill :
    mC9.IsValid = none ∧
    mC9.encodeBytes.dropLast ++ [9] = mC9.encodeBytes ∧
    DecodeMessage mC9.encodeBytes.dropLast = .ok mC9decoded ∧
    mC9decoded.body = [7, 0] ∧ mC9.body = [7, 9] :=
  ⟨rfl, rfl, rfl, rfl, rfl⟩

/-! ## Claim C10: duplicate header field codes -/

/-- `decodeWith` after a successful read phase either fails validation or
returns the message assembled from the raw parts. -/
theorem decodeWith_ok_parts (o : ByteOrder) (t : List Nat) (p : RawParts)
    (h : decodeParts o t = .ok p) :
    decodeWith o t =
      (match (⟨some o, p.type, p.flags, p.serial, buildHeaders p.entries,
          p.body⟩ : Message).IsValid with
        | some e => .error (.invalid e)
        | none => .ok (⟨some o, p.type, p.flags, p.serial,
            buildHeaders p.entries, p.body⟩ : Message)) := by
  unfold decodeWith
  rw [h]

/-- C10: when the wire header array holds the same field code more than
once, decoding does not fail on the duplicate: the resulting `Headers` map
binds that code exactly once, to the variant of the last occurrence in wire
order, and earlier occurrences are discarded. -/
theorem c10_duplicate_headers_last_wins (o : ByteOrder) (t : List Nat)
    (p : RawParts) (m : Message)
    (h1 : decodeParts o t = .ok p) (h2 : decodeWith o t = .ok m) :
    m.headers = buildHeaders p.entries ∧
    (m.headers.map Prod.fst).Nodup ∧
    (∀ k, k ∈ p.entries.map Prod.fst →
      lookupH m.headers k = lastVal p.entries k ∧
      (m.headers.map Prod.fst).count k = 1) := by
  rw [decodeWith_ok_parts o t p h1] at h2
  have hm : m = ⟨some o, p.type, p.flags, p.serial, buildHeaders p.entries, p.body⟩ := by
    cases hv : Message.IsValid ⟨some o, p.type, p.flags, p.serial,
        buildHeaders p.entries, p.body⟩ with
    | some e =>
      rw [hv] at h2
      cases h2
    | none =>
      rw [hv] at h2
      cases h2
      rfl
  subst hm
  refine ⟨rfl, nodup_keys_buildHeaders p.entries, fun k hk => ⟨?_, ?_⟩⟩
  · exact lookupH_buildHeaders p.entries k
  · exact List.count_eq_one_of_mem (nodup_keys_buildHeaders p.entries)
      ((mem_keys_buildHeaders p.entries k).mpr hk)

/-- The wire-order entries of the C10 witness stream: the Path code 1 occurs
twice, with different object paths. -/
def c10entries : List (Nat × Variant) :=
  [(1, ⟨.objPath [47, 97]⟩), (3, ⟨.str [109]⟩), (1, ⟨.objPath [47, 98]⟩)]

/-- A little-endian post-marker stream carrying the duplicate entries
(method call, serial 1, empty body, one alignment padding byte). -/
def c10tail : List Nat :=
  [1, 0, 1] ++ encU32 .littleEndian 0 ++ encU32 .littleEndian 1 ++
    encU32 .littleEndian 3 ++ (c10entries.map (encHeader .littleEndian)).flatten ++ [0]

/-- The raw parts the read phase produces for `c10tail`. -/
def c10parts : RawParts := ⟨1, 0, 1, 0, 1, c10entries, []⟩

/-- The decoded message: Path bound once, to the second occurrence. -/
def c10msg : Message :=
  ⟨some .littleEndian, 1, 0, 1,
    [(1, ⟨.objPath [47, 98]⟩), (3, ⟨.str [109]⟩)], []⟩

/-- Witness for C10: on the concrete duplicate-bearing stream the decode
succeeds and the claim's conclusions hold for the duplicated code 1. -/
theorem c10_duplicate_headers_last_wins_witness :
    lookupH c10msg.headers 1 = lastVal c10parts.entries 1 ∧
    (c10msg.headers.map Prod.fst).count 1 = 1 :=
  (c10_duplicate_headers_last_wins .littleEndian c10tail c10parts c10msg
    rfl rfl).2.2 1 (by decide)

/-! ## Claim C1: encode/decode round trip

The round trip holds for messages whose `Order` is little-endian.  For a
big-endian message it fails: `EncodeTo` writes the multi-byte fields
little-endian but marks the stream `'B'`, so `DecodeMessage` re-reads them
big-endian — the header-array count is misread as `2 ^ 24` and decoding
runs into the padding, failing; the serial would be misread the same way. -/

theorem readBody_all (bs : List Nat) : readBody bs.length bs = .ok (bs, []) := by
  cases bs with
  | nil => rfl
  | cons b t =>
    unfold readBody
    rw [if_neg (by simp)]
    simp

/-- The read phase inverts the encode layout on any stream assembled from
encoded components (little-endian case). -/
theorem decodeParts_encoded_stream
    (ty fl pv ser padN : Nat) (es : List (Nat × Variant)) (body : List Nat)
    (hser : ser < 2 ^ 32) (hblen : body.length < 2 ^ 32) (hcnt : es.length < 2 ^ 32)
    (hes : ∀ e ∈ es, e.1 < 2 ^ 8 ∧ e.2.value ≠ .other ∧ e.2.value.wfv)
    (hpad : padN = padTo8 (16 + ((es.map (encHeader .littleEndian)).flatten).length)) :
    decodeParts .littleEndian
      (ty :: fl :: pv ::
        (encU32 .littleEndian body.length ++ (encU32 .littleEndian ser ++
          (encU32 .littleEndian es.length ++
            ((es.map (encHeader .littleEndian)).flatten ++
              (List.replicate padN 0 ++ body)))))) =
      .ok ⟨ty, fl, pv, body.length, ser, es, body⟩ := by
  have hre := readEntries_enc .littleEndian es (List.replicate padN 0 ++ body) hes
  have hmods : ser % 2 ^ 32 = ser := Nat.mod_eq_of_lt hser
  have hmodb : body.length % 2 ^ 32 = body.length := Nat.mod_eq_of_lt hblen
  have hmodc : es.length % 2 ^ 32 = es.length := Nat.mod_eq_of_lt hcnt
  unfold decodeParts
  simp only [readByte, readU32_enc, hmods, hmodb, hmodc, hre]
  have hlen1 : (1 + ((ty :: fl :: pv ::
      (encU32 .littleEndian body.length ++ (encU32 .littleEndian ser ++
        (encU32 .littleEndian es.length ++
          ((es.map (encHeader .littleEndian)).flatten ++
            (List.replicate padN 0 ++ body)))))).length -
      (List.replicate padN 0 ++ body).length)) =
      16 + ((es.map (encHeader .littleEndian)).flatten).length := by
    simp [encU32_length]
    omega
  rw [hlen1, ← hpad]
  have hex : readBytes padN (List.replicate padN 0 ++ body) =
      .ok (List.replicate padN 0, body) := by
    have h := readBytes_exact (List.replicate padN 0) body
    rwa [List.length_replicate] at h
  simp only [hex, readBody_all]

/-- On a well-formed valid message the read phase recovers every encoded
field from `EncodeTo`'s buffer (marker byte stripped). -/
theorem decodeParts_encodeBytes (m : Message) (hwf : m.wf) (hv : m.IsValid = none) :
    decodeParts .littleEndian m.encodeBytes.tail =
      .ok ⟨m.type, m.flags, protoVersion, m.body.length, m.serial, m.headers, m.body⟩ := by
  obtain ⟨hty, hfl, hser, hhlen, hnodup, hentries, hblen, hbytes⟩ := hwf
  have hch : checkHeaders m.headers = none := ((IsValid_eq_none_iff m).mp hv).2.2.2.2.1
  have hek := (checkHeaders_eq_none_iff m.headers).mp hch
  have hes : ∀ e ∈ m.headers, e.1 < 2 ^ 8 ∧ e.2.value ≠ .other ∧ e.2.value.wfv :=
    fun e he => ⟨(hentries e he).1, entryOk_value_ne_other e (hek e he), (hentries e he).2⟩
  have htail : m.encodeBytes.tail =
      m.type % 256 :: m.flags % 256 :: protoVersion ::
        (encU32 .littleEndian m.body.length ++ (encU32 .littleEndian m.serial ++
          (encU32 .littleEndian m.headers.length ++
            ((m.headers.map (encHeader .littleEndian)).flatten ++
              (List.replicate (padTo8 m.encodeHead.length) 0 ++ m.body))))) := by
    unfold Message.encodeBytes Message.encodeHead encHeaderArray
    simp only [List.cons_append, List.tail_cons, List.append_assoc]
  have hpadeq : padTo8 m.encodeHead.length =
      padTo8 (16 + ((m.headers.map (encHeader .littleEndian)).flatten).length) := by
    have hL : m.encodeHead.length =
        16 + ((m.headers.map (encHeader .littleEndian)).flatten).length := by
      unfold Message.encodeHead encHeaderArray
      simp [encU32_length]
      omega
    rw [hL]
  have hmodty : m.type % 256 = m.type := Nat.mod_eq_of_lt (by omega)
  have hmodfl : m.flags % 256 = m.flags := Nat.mod_eq_of_lt (by omega)
  rw [htail]
  have h := decodeParts_encoded_stream (m.type % 256) (m.flags % 256) protoVersion
    m.serial (padTo8 m.encodeHead.length) m.headers m.body hser hblen hhlen hes hpadeq
  rw [h, hmodty, hmodfl]

/-- C1 (amended): for every well-formed message that passes validation and
whose `Order` is little-endian, `EncodeTo` writes its assembled buffer and
`DecodeMessage` on that buffer succeeds, returning a message equal to the
original — in particular with identical `Type`, `Flags`, `Serial`,
`Headers` and `Body`.  (For big-endian messages the round trip fails; see
the counterexample.) -/
theorem c1_round_trip_little_endian (m : Message) (hwf : m.wf)
    (hv : m.IsValid = none) (ho : m.order = some .littleEndian) :
    m.EncodeTo = (none, [m.encodeBytes]) ∧
    DecodeMessage m.encodeBytes = .ok m := by
  have hnodup : (m.headers.map Prod.fst).Nodup := hwf.2.2.2.2.1
  have hdp := decodeParts_encodeBytes m hwf hv
  have hcons : m.encodeBytes = markerByte m.order :: m.encodeBytes.tail := by
    unfold Message.encodeBytes Message.encodeHead
    rfl
  constructor
  · unfold Message.EncodeTo
    rw [hv]
  · rw [hcons, ho]
    rw [show markerByte (some ByteOrder.littleEndian) = 108 from rfl]
    rw [show DecodeMessage (108 :: m.encodeBytes.tail) =
      decodeWith .littleEndian m.encodeBytes.tail from by simp [DecodeMessage]]
    rw [decodeWith_ok_parts _ _ _ hdp]
    have hbh : buildHeaders m.headers = m.headers := buildHeaders_eq_self m.headers hnodup
    simp only [hbh, ← ho]
    rw [hv]

/-- A valid big-endian message (method reply with its reply serial). -/
def mC1be : Message := ⟨some .bigEndian, 2, 0, 1, [(5, ⟨.u32 9⟩)], []⟩

/-- Counterexample to C1 as stated: `mC1be` passes validation, `EncodeTo`
writes its buffer, yet decoding that byte sequence does not succeed — the
big-endian reinterpretation of the little-endian header-array count makes
the decoder consume the alignment padding as an entry and fail — so no
message with equal fields is returned. -/
theorem c1_round_trip_counterexample :
    mC1be.IsValid = none ∧
    mC1be.EncodeTo = (none, [mC1be.encodeBytes]) ∧
    DecodeMessage mC1be.encodeBytes = .error .badTag :=
  ⟨rfl, rfl, rfl⟩

/-- A valid little-endian signal message with Path, Interface and Member. -/
def mW1 : Message :=
  ⟨some .littleEndian, 4, 1, 3,
    [(1, ⟨.objPath [47, 120]⟩), (2, ⟨.str [73]⟩), (3, ⟨.str [70]⟩)], []⟩

/-- Witness for the amended C1 on a concrete little-endian message. -/
theorem c1_round_trip_little_endian_witness :
    Message.wf mW1 ∧ mW1.IsValid = none ∧ DecodeMessage mW1.encodeBytes = .ok mW1 :=
  ⟨by decide, by rfl,
    (c1_round_trip_little_endian mW1 (by decide) (by rfl) (by rfl)).2⟩

end DBus
